import Mathlib

/-!
# Verification of the Black Hole time-modulation core

A shallow embedding, over exact rationals, of the black-hole oscillator code:
phase updates (`updatePhase`), the closed-form active-time computation
(`realTimeWhileActive`), the active/effective period decomposition of a real-time
interval, and the offline-tick binary search (`calculateOfflineTick`).

JavaScript numbers are idealized as `ℚ`; `Math.floor` is `Int.floor`, and the
JavaScript remainder operator `%` (which truncates the quotient toward zero) is
modelled by `jsMod`.  The nonterminating `while (true)` loop of `binarySearch`
is modelled with explicit fuel returning `Option`: `none` means the loop is
still running after `fuel` iterations.
-/

namespace BlackHoleVerif

/-- Truncation of a rational toward zero, as used by the JavaScript `%` operator. -/
def jsTrunc (q : ℚ) : ℤ := if 0 ≤ q then ⌊q⌋ else ⌈q⌉

/-- The JavaScript remainder operator `x % y` on numbers:
`x - y * trunc (x / y)` (the result has the sign of the dividend). -/
def jsMod (x y : ℚ) : ℚ := x - y * jsTrunc (x / y)

/-- Snapshot of one black hole (`BlackHoleState`): the derived upgrade values
`interval`, `duration`, `power` together with the persisted fields
`phase`, `active` (charged) flag, `activations` and `unlocked`
(`isUnlocked` in the source also consults the external `Enslaved.isRunning`
flag, which is outside this core; we model the resulting boolean directly). -/
structure BlackHoleState where
  interval : ℚ
  duration : ℚ
  power : ℚ
  phase : ℚ
  isCharged : Bool
  activations : ℤ
  isUnlocked : Bool
deriving Repr, DecidableEq

/-- Source getter `cycleLength`: `this.interval + this.duration`. -/
def cycleLength (s : BlackHoleState) : ℚ := s.interval + s.duration

/-- Source getter `timeUntilNextDeactivation`: `duration - phase` when charged,
else `cycleLength - phase`. -/
def timeUntilNextDeactivation (s : BlackHoleState) : ℚ :=
  if s.isCharged then s.duration - s.phase else cycleLength s - s.phase

/-- Source method `updatePhase(activePeriod)`: add the elapsed active period to the phase,
fold full cycles by `Math.floor` / `%`, then resolve at most one boundary
crossing (deactivation when charged, activation when uncharged). -/
def updatePhase (s : BlackHoleState) (activePeriod : ℚ) : BlackHoleState :=
  let s1 :=
    if s.phase + activePeriod ≥ cycleLength s then
      { s with
        activations := s.activations + ⌊(s.phase + activePeriod) / cycleLength s⌋,
        phase := jsMod (s.phase + activePeriod) (cycleLength s) }
    else
      { s with phase := s.phase + activePeriod }
  if s1.isCharged then
    if s1.phase ≥ s1.duration then
      { s1 with phase := s1.phase - s1.duration, isCharged := false }
    else s1
  else if s1.phase ≥ s1.interval then
    { s1 with
      phase := s1.phase - s1.interval,
      activations := s1.activations + 1,
      isCharged := true }
  else s1

/-- Number of charged/uncharged toggles performed by one `updatePhase` call:
the modular folding never touches the `active` flag; the flag is assigned in
exactly the two boundary-crossing branches of the source. -/
def updatePhaseToggles (s : BlackHoleState) (activePeriod : ℚ) : ℕ :=
  let s1 :=
    if s.phase + activePeriod ≥ cycleLength s then
      { s with
        activations := s.activations + ⌊(s.phase + activePeriod) / cycleLength s⌋,
        phase := jsMod (s.phase + activePeriod) (cycleLength s) }
    else
      { s with phase := s.phase + activePeriod }
  if s1.isCharged then
    if s1.phase ≥ s1.duration then 1 else 0
  else if s1.phase ≥ s1.interval then 1 else 0

/-- Source method `realTimeWhileActive(time)`: closed-form time for which this black hole is
active, given that its host clock is active for `time`. -/
def realTimeWhileActive (s : BlackHoleState) (time : ℚ) : ℚ :=
  let nextDeactivation := timeUntilNextDeactivation s
  let cooldown := s.interval
  let duration := s.duration
  let fullCycle := cycleLength s
  let currentActivationDuration := min nextDeactivation duration
  let activeCyclesUntilLastDeactivation : ℤ := ⌊(time - nextDeactivation) / fullCycle⌋
  let activeTimeUntilLastDeactivation := duration * (activeCyclesUntilLastDeactivation : ℚ)
  let timeLeftAfterLastDeactivation := jsMod (time - nextDeactivation + fullCycle) fullCycle
  let lastActivationDuration := max (timeLeftAfterLastDeactivation - cooldown) 0
  currentActivationDuration + activeTimeUntilLastDeactivation + lastActivationDuration

/-- Interval upgrade value from the constructor:
`(3600 / Math.pow(10, id)) * Math.pow(0.8, amount)`. -/
def intervalValue (id amount : ℕ) : ℚ := (3600 / 10 ^ id) * (4 / 5) ^ amount

/-- Power upgrade value from the constructor:
`(180 / Math.pow(2, id)) * Math.pow(1.35, amount)`. -/
def powerValue (id amount : ℕ) : ℚ := (180 / 2 ^ id) * (27 / 20) ^ amount

/-- Duration upgrade value from the constructor:
`(10 - (id) * 3) * Math.pow(1.3, amount)`. -/
def durationValue (id amount : ℕ) : ℚ := (10 - 3 * (id : ℚ)) * (13 / 10) ^ amount

/-- The `BlackHoleState` constructor: it performs no validation; the derived
interval/power/duration values come from the three upgrade formulas, and the
persisted fields (`phase`, `active`, `activations`, `unlocked`) are whatever
the save data holds.  The source builds `BlackHoleState.list` from ids
`Array.range(0, 3) = [0, 1, 2]`. -/
def mkBlackHoleState (id intervalUpgrades powerUpgrades durationUpgrades : ℕ)
    (phase : ℚ) (active : Bool) (activations : ℤ) (unlocked : Bool) : BlackHoleState :=
  { interval := intervalValue id intervalUpgrades
    duration := durationValue id durationUpgrades
    power := powerValue id powerUpgrades
    phase := phase
    isCharged := active
    activations := activations
    isUnlocked := unlocked }

/-- Loop body of `realTimePeriodsWithBlackHoleActive`: walk the list of black
holes, breaking at the first locked one, feeding each computed active time to
the next black hole. -/
def activePeriodsAux : List BlackHoleState → ℚ → List ℚ
  | [], _ => []
  | h :: rest, last =>
    if h.isUnlocked then
      realTimeWhileActive h last :: activePeriodsAux rest (realTimeWhileActive h last)
    else []

/-- Source method `realTimePeriodsWithBlackHoleActive(realTime)`: `[realTime, activeTime 1, …]`,
stopping at the first locked black hole. -/
def realTimePeriodsWithBlackHoleActive (holes : List BlackHoleState) (realTime : ℚ) :
    List ℚ :=
  realTime :: activePeriodsAux holes realTime

/-- Pairwise differences with the final element kept, as in the source's loop
`effectivePeriods.push(activePeriods[i] - activePeriods[i + 1])` followed by
`effectivePeriods.push(activePeriods.last())`. -/
def effectiveAux : List ℚ → List ℚ
  | [] => []
  | [x] => [x]
  | x :: y :: rest => (x - y) :: effectiveAux (y :: rest)

/-- Source method `realTimePeriodsWithBlackHoleEffective(realTime)` (the `speedups` argument of
the source is unused by the function body). -/
def realTimePeriodsWithBlackHoleEffective (holes : List BlackHoleState) (realTime : ℚ) :
    List ℚ :=
  effectiveAux (realTimePeriodsWithBlackHoleActive holes realTime)

/-- Source method `calculateGameTimeFromRealTime(realTime, speedups)`:
`effectivePeriods.map((period, i) => period * speedups[i]).sum()`.
`speedups` itself is produced by `calculateSpeedups` from the external
`getGameSpeedupFactor`, so it is taken here as an explicit argument. -/
def calculateGameTimeFromRealTime (holes : List BlackHoleState) (realTime : ℚ)
    (speedups : List ℚ) : ℚ :=
  (((realTimePeriodsWithBlackHoleEffective holes realTime).enum).map
    (fun pi => pi.2 * speedups.getD pi.1 0)).sum

/-- Source method `binarySearch(start, end, evaluationFunction, target, tolerance)`:
the source loops `while (true)`; fuel counts loop iterations, with `none`
meaning the loop has not returned within `fuel` iterations. -/
def binarySearch (start stop : ℚ) (evaluationFunction : ℚ → ℚ) (target tolerance : ℚ) :
    ℕ → Option ℚ
  | 0 => none
  | fuel + 1 =>
    let median := (start + stop) / 2
    let error := evaluationFunction median - target
    if |error| < tolerance then some median
    else if error < 0 then binarySearch median stop evaluationFunction target tolerance fuel
    else binarySearch start median evaluationFunction target tolerance fuel

/-- Source method `calculateOfflineTick(totalRealTime, numberOfTicks, tolerance)`: the
`numberOfTicks === 1` shortcut, else a binary search for the first tick's real
time.  Returns `none` exactly when the underlying search loop is still running
after `fuel` iterations. -/
def calculateOfflineTick (holes : List BlackHoleState) (speedups : List ℚ)
    (totalRealTime : ℚ) (numberOfTicks : ℕ) (tolerance : ℚ) (fuel : ℕ) :
    Option (ℚ × ℚ) :=
  let totalGameTime := calculateGameTimeFromRealTime holes totalRealTime speedups
  if numberOfTicks = 1 then some (totalRealTime, totalGameTime / totalRealTime)
  else
    (binarySearch 0 totalRealTime
      (fun x => calculateGameTimeFromRealTime holes x speedups * numberOfTicks / totalGameTime)
      1 tolerance fuel).map
      (fun realTickTime =>
        (realTickTime, calculateGameTimeFromRealTime holes realTickTime speedups / realTickTime))

/-- Modelled from the spec: the reference step-by-step simulation of one
oscillator ("simulating the same interval in arbitrarily small steps …
summed").  It advances from boundary event to boundary event — the exact limit
of summing the active portions of arbitrarily small increments — charging
`min(remaining, duration - phase)` while charged, nothing while uncharged, and
performing an immediate flag transition when the phase already sits past its
window boundary.  Fuel bounds the number of boundary events considered. -/
def simulateActiveTime (i d : ℚ) : ℕ → Bool → ℚ → ℚ → ℚ
  | 0, _, _, _ => 0
  | fuel + 1, true, p, t =>
    if d - p < 0 then simulateActiveTime i d fuel false (p - d) t
    else if t ≤ d - p then t
    else (d - p) + simulateActiveTime i d fuel false 0 (t - (d - p))
  | fuel + 1, false, p, t =>
    if i - p < 0 then simulateActiveTime i d fuel true (p - i) t
    else if t ≤ i - p then 0
    else simulateActiveTime i d fuel true 0 (t - (i - p))

/-- A black hole snapshot whose phase is consistent with its charged flag:
inside the active window when charged, inside the inactive window when not.
These are exactly the states `updatePhase` can leave behind. -/
def WellFormed (s : BlackHoleState) : Prop :=
  0 < s.interval ∧ 0 < s.duration ∧ 0 ≤ s.phase ∧
    (s.isCharged = true → s.phase ≤ s.duration) ∧
    (s.isCharged = false → s.phase ≤ s.interval)

instance (s : BlackHoleState) : Decidable (WellFormed s) := by
  unfold WellFormed; infer_instance

/-- Position within one full cycle that starts with the inactive segment:
`hWin i d x` is the total active time accumulated `x` units after a
deactivation boundary (negative `x` reaches into earlier cycles).  This is the
common combinatorial core of `realTimeWhileActive`. -/
def hWin (i d x : ℚ) : ℚ :=
  d * (⌊x / (i + d)⌋ : ℚ) + max (x - (i + d) * (⌊x / (i + d)⌋ : ℚ) - i) 0

/-- Bounds of the snapshot hypothesis appearing in the claims: positive
interval and duration, phase within one full cycle. -/
def SnapshotBounds (s : BlackHoleState) : Prop :=
  0 < s.interval ∧ 0 < s.duration ∧ 0 ≤ s.phase ∧
    s.phase < s.interval + s.duration

instance (s : BlackHoleState) : Decidable (SnapshotBounds s) := by
  unfold SnapshotBounds; infer_instance

/-- Minimal snapshot used to state recurrences and concrete instances:
`realTimeWhileActive` reads only the `interval`, `duration`, `isCharged` and
`phase` fields. -/
def snap (i d : ℚ) (c : Bool) (p : ℚ) : BlackHoleState :=
  { interval := i, duration := d, power := 0, phase := p, isCharged := c,
    activations := 0, isUnlocked := true }

/-! ## Arithmetic facts about `jsMod` and `hWin` -/

lemma jsMod_eq_of_nonneg {x y : ℚ} (hx : 0 ≤ x) (hy : 0 < y) :
    jsMod x y = x - y * ⌊x / y⌋ := by
  unfold jsMod jsTrunc
  rw [if_pos (div_nonneg hx hy.le)]

lemma jsMod_nonneg {x y : ℚ} (hx : 0 ≤ x) (hy : 0 < y) : 0 ≤ jsMod x y := by
  rw [jsMod_eq_of_nonneg hx hy]
  have h := Int.floor_le (x / y)
  have : y * ⌊x / y⌋ ≤ y * (x / y) := by
    exact mul_le_mul_of_nonneg_left h hy.le
  have hxy : y * (x / y) = x := by field_simp
  linarith

lemma jsMod_lt {x y : ℚ} (hx : 0 ≤ x) (hy : 0 < y) : jsMod x y < y := by
  rw [jsMod_eq_of_nonneg hx hy]
  have h := Int.lt_floor_add_one (x / y)
  have : y * (x / y) < y * (⌊x / y⌋ + 1) := mul_lt_mul_of_pos_left h hy
  have hxy : y * (x / y) = x := by field_simp
  nlinarith

lemma jsMod_add_left {x L : ℚ} (hL : 0 < L) (hx : 0 ≤ x + L) :
    jsMod (x + L) L = x - L * ⌊x / L⌋ := by
  have hdiv : (x + L) / L = x / L + 1 := by field_simp
  unfold jsMod jsTrunc
  rw [if_pos (div_nonneg hx hL.le), hdiv, Int.floor_add_one]
  push_cast
  ring

lemma hWin_floor_neg_one {i d x : ℚ} (hL : 0 < i + d) (h1 : -(i + d) ≤ x)
    (h2 : x < 0) : hWin i d x = -d + max (x + d) 0 := by
  have hk : ⌊x / (i + d)⌋ = -1 := by
    rw [Int.floor_eq_iff]
    constructor
    · push_cast
      rw [le_div_iff hL]
      linarith
    · push_cast
      have : x / (i + d) < 0 := div_neg_of_neg_of_pos h2 hL
      linarith
  unfold hWin
  rw [hk]
  push_cast
  have harg : x - (i + d) * (-1) - i = x + d := by ring
  rw [harg]
  ring

lemma hWin_zero {i d : ℚ} (hi : 0 ≤ i) (hL : 0 < i + d) : hWin i d 0 = 0 := by
  unfold hWin
  rw [zero_div, Int.floor_zero]
  have harg : (0 : ℚ) - (i + d) * (((0 : ℤ) : ℚ)) - i = -i := by
    push_cast
    ring
  rw [harg, max_eq_right (by linarith : -i ≤ (0 : ℚ))]
  push_cast
  ring

lemma hWin_shift {i d x : ℚ} (hL : 0 < i + d) :
    hWin i d (x + (i + d)) = d + hWin i d x := by
  have hdiv : (x + (i + d)) / (i + d) = x / (i + d) + 1 := by field_simp
  unfold hWin
  rw [hdiv, Int.floor_add_one]
  push_cast
  have harg : x + (i + d) - (i + d) * (⌊x / (i + d)⌋ + 1) - i =
      x - (i + d) * ⌊x / (i + d)⌋ - i := by ring
  rw [harg]
  ring

lemma hWin_mono {i d x y : ℚ} (hi : 0 < i) (hd : 0 < d) (hxy : x ≤ y) :
    hWin i d x ≤ hWin i d y := by
  have hL : 0 < i + d := by linarith
  have hk : ⌊x / (i + d)⌋ ≤ ⌊y / (i + d)⌋ :=
    Int.floor_le_floor (by gcongr)
  rcases eq_or_lt_of_le hk with heq | hlt
  · unfold hWin
    rw [← heq]
    have : x - (i + d) * ⌊x / (i + d)⌋ - i ≤ y - (i + d) * ⌊x / (i + d)⌋ - i := by
      linarith
    exact add_le_add_left (max_le_max this le_rfl) _
  · have hk1 : (⌊x / (i + d)⌋ : ℚ) + 1 ≤ ⌊y / (i + d)⌋ := by
      exact_mod_cast Int.add_one_le_iff.mpr hlt
    have hxlt : x < (i + d) * (⌊x / (i + d)⌋ + 1) := by
      have := Int.lt_floor_add_one (x / (i + d))
      rw [div_lt_iff hL] at this
      push_cast at this
      linarith [this]
    have hbound : max (x - (i + d) * ⌊x / (i + d)⌋ - i) 0 ≤ d := by
      apply max_le _ hd.le
      push_cast
      linarith
    have h1 : hWin i d x ≤ d * (⌊x / (i + d)⌋ + 1) := by
      unfold hWin
      push_cast
      nlinarith [hbound]
    have h2 : d * ((⌊x / (i + d)⌋ : ℚ) + 1) ≤ d * ⌊y / (i + d)⌋ :=
      mul_le_mul_of_nonneg_left hk1 hd.le
    have h3 : d * (⌊y / (i + d)⌋ : ℚ) ≤ hWin i d y := by
      unfold hWin
      have := le_max_right (y - (i + d) * (⌊y / (i + d)⌋ : ℚ) - i) 0
      linarith [le_max_right (y - (i + d) * (⌊y / (i + d)⌋ : ℚ) - i) (0 : ℚ)]
    linarith

lemma hWin_nonneg {i d x : ℚ} (hL : 0 < i + d) (hd : 0 ≤ d) (hx : 0 ≤ x) :
    0 ≤ hWin i d x := by
  have hk : (0 : ℤ) ≤ ⌊x / (i + d)⌋ :=
    Int.floor_nonneg.mpr (div_nonneg hx hL.le)
  unfold hWin
  have h1 : (0 : ℚ) ≤ d * (⌊x / (i + d)⌋ : ℚ) := by
    apply mul_nonneg hd
    exact_mod_cast hk
  have h2 := le_max_right (x - (i + d) * (⌊x / (i + d)⌋ : ℚ) - i) (0 : ℚ)
  linarith

lemma hWin_le_self {i d x : ℚ} (hi : 0 ≤ i) (hL : 0 < i + d) (hx : 0 ≤ x) :
    hWin i d x ≤ x := by
  have hk : (0 : ℤ) ≤ ⌊x / (i + d)⌋ :=
    Int.floor_nonneg.mpr (div_nonneg hx hL.le)
  have hfr : (i + d) * (⌊x / (i + d)⌋ : ℚ) ≤ x := by
    have := Int.floor_le (x / (i + d))
    rw [le_div_iff hL] at this
    linarith
  have hdk : d * (⌊x / (i + d)⌋ : ℚ) ≤ (i + d) * (⌊x / (i + d)⌋ : ℚ) := by
    apply mul_le_mul_of_nonneg_right (by linarith)
    exact_mod_cast hk
  unfold hWin
  have hmax : max (x - (i + d) * (⌊x / (i + d)⌋ : ℚ) - i) 0 ≤
      x - (i + d) * (⌊x / (i + d)⌋ : ℚ) := by
    apply max_le (by linarith) (by linarith)
  linarith

/-! ## Decomposition of `realTimeWhileActive` through `hWin` -/

lemma timeUntilNextDeactivation_le {s : BlackHoleState} (hi : 0 ≤ s.interval)
    (hp : 0 ≤ s.phase) : timeUntilNextDeactivation s ≤ cycleLength s := by
  unfold timeUntilNextDeactivation cycleLength
  split_ifs <;> linarith

lemma realTimeWhileActive_decomp (s : BlackHoleState) (t : ℚ)
    (hL : 0 < cycleLength s)
    (harg : 0 ≤ t - timeUntilNextDeactivation s + cycleLength s) :
    realTimeWhileActive s t =
      min (timeUntilNextDeactivation s) s.duration +
        hWin s.interval s.duration (t - timeUntilNextDeactivation s) := by
  unfold realTimeWhileActive
  dsimp only
  have hmod := jsMod_add_left (x := t - timeUntilNextDeactivation s) hL
    (by linarith)
  unfold cycleLength at hmod hL ⊢
  rw [hmod]
  unfold hWin
  ring

lemma rtwa_charged_flat (s : BlackHoleState) (t : ℚ) (hs : s.isCharged = true)
    (hi : 0 < s.interval) (hd : 0 < s.duration) (hp : 0 ≤ s.phase)
    (hpd : s.phase ≤ s.duration) (ht : 0 ≤ t)
    (htN : t ≤ s.duration - s.phase) :
    realTimeWhileActive s t = t := by
  have hN : timeUntilNextDeactivation s = s.duration - s.phase := by
    unfold timeUntilNextDeactivation
    rw [if_pos hs]
  have hL : 0 < cycleLength s := by
    unfold cycleLength
    linarith
  rw [realTimeWhileActive_decomp s t hL (by unfold cycleLength; rw [hN]; linarith)]
  rw [hN]
  have hmin : min (s.duration - s.phase) s.duration = s.duration - s.phase :=
    min_eq_left (by linarith)
  rw [hmin]
  rcases lt_or_eq_of_le htN with hlt | heq
  · rw [hWin_floor_neg_one (by unfold cycleLength at hL; linarith)
      (by linarith) (by linarith)]
    rw [max_eq_left (by linarith : (0 : ℚ) ≤ t - (s.duration - s.phase) + s.duration)]
    ring
  · rw [heq]
    rw [sub_self, hWin_zero hi.le (by unfold cycleLength at hL; linarith)]
    ring

lemma rtwa_charged_step (s : BlackHoleState) (t : ℚ) (hs : s.isCharged = true)
    (hi : 0 < s.interval) (hd : 0 < s.duration) (hp : 0 ≤ s.phase)
    (htN : s.duration - s.phase ≤ t) :
    realTimeWhileActive s t =
      (s.duration - s.phase) +
        realTimeWhileActive (snap s.interval s.duration false 0)
          (t - (s.duration - s.phase)) := by
  have hN : timeUntilNextDeactivation s = s.duration - s.phase := by
    unfold timeUntilNextDeactivation
    rw [if_pos hs]
  have hL : 0 < cycleLength s := by
    unfold cycleLength
    linarith
  have hLq : 0 < s.interval + s.duration := hL
  rw [realTimeWhileActive_decomp s t hL (by unfold cycleLength; rw [hN]; linarith)]
  rw [hN]
  have hmin : min (s.duration - s.phase) s.duration = s.duration - s.phase :=
    min_eq_left (by linarith)
  rw [hmin]
  have hN' : timeUntilNextDeactivation (snap s.interval s.duration false 0) =
      s.interval + s.duration := by
    unfold timeUntilNextDeactivation snap cycleLength
    norm_num
  have hL' : 0 < cycleLength (snap s.interval s.duration false 0) := by
    unfold cycleLength snap
    dsimp only
    linarith
  rw [realTimeWhileActive_decomp _ _ hL' (by rw [hN']; unfold cycleLength snap; dsimp only; linarith)]
  rw [hN']
  unfold snap
  dsimp only
  have hmin' : min (s.interval + s.duration) s.duration = s.duration :=
    min_eq_right (by linarith)
  rw [hmin']
  have hshift := hWin_shift (i := s.interval) (d := s.duration)
    (x := t - (s.duration - s.phase) - (s.interval + s.duration)) hLq
  have harg : t - (s.duration - s.phase) - (s.interval + s.duration) + (s.interval + s.duration) =
      t - (s.duration - s.phase) := by ring
  rw [harg] at hshift
  rw [hshift]

lemma rtwa_uncharged_flat (s : BlackHoleState) (t : ℚ) (hs : s.isCharged = false)
    (hi : 0 < s.interval) (hd : 0 < s.duration) (hp : 0 ≤ s.phase)
    (hpi : s.phase ≤ s.interval) (ht : 0 ≤ t)
    (htb : t ≤ s.interval - s.phase) :
    realTimeWhileActive s t = 0 := by
  have hN : timeUntilNextDeactivation s = s.interval + s.duration - s.phase := by
    unfold timeUntilNextDeactivation cycleLength
    rw [if_neg (by rw [hs]; exact Bool.false_ne_true)]
  have hL : 0 < cycleLength s := by
    unfold cycleLength
    linarith
  rw [realTimeWhileActive_decomp s t hL (by unfold cycleLength; rw [hN]; linarith)]
  rw [hN]
  have hmin : min (s.interval + s.duration - s.phase) s.duration = s.duration :=
    min_eq_right (by linarith)
  rw [hmin]
  rw [hWin_floor_neg_one (by linarith) (by linarith) (by linarith)]
  rw [max_eq_right (by linarith :
    t - (s.interval + s.duration - s.phase) + s.duration ≤ 0)]
  ring

lemma rtwa_uncharged_step (s : BlackHoleState) (t : ℚ) (hs : s.isCharged = false)
    (hi : 0 < s.interval) (hd : 0 < s.duration) (hp : 0 ≤ s.phase)
    (hpi : s.phase ≤ s.interval) (htb : s.interval - s.phase ≤ t) :
    realTimeWhileActive s t =
      realTimeWhileActive (snap s.interval s.duration true 0)
        (t - (s.interval - s.phase)) := by
  have hN : timeUntilNextDeactivation s = s.interval + s.duration - s.phase := by
    unfold timeUntilNextDeactivation cycleLength
    rw [if_neg (by rw [hs]; exact Bool.false_ne_true)]
  have hL : 0 < cycleLength s := by
    unfold cycleLength
    linarith
  rw [realTimeWhileActive_decomp s t hL (by unfold cycleLength; rw [hN]; linarith)]
  rw [hN]
  have hmin : min (s.interval + s.duration - s.phase) s.duration = s.duration :=
    min_eq_right (by linarith)
  rw [hmin]
  have hN' : timeUntilNextDeactivation (snap s.interval s.duration true 0) =
      s.duration := by
    unfold timeUntilNextDeactivation snap
    norm_num
  have hL' : 0 < cycleLength (snap s.interval s.duration true 0) := by
    unfold cycleLength snap
    dsimp only
    linarith
  rw [realTimeWhileActive_decomp _ _ hL' (by rw [hN']; unfold cycleLength snap; dsimp only; linarith)]
  rw [hN']
  unfold snap
  dsimp only
  have hmin' : min s.duration s.duration = s.duration := min_self _
  rw [hmin']
  have harg : t - (s.interval - s.phase) - s.duration =
      t - (s.interval + s.duration - s.phase) := by ring
  rw [harg]

/-! ## Equivalence of the closed form with the reference simulation -/

lemma simulateActiveTime_succ_charged (i d : ℚ) (fuel : ℕ) (p t : ℚ) :
    simulateActiveTime i d (fuel + 1) true p t =
      if d - p < 0 then simulateActiveTime i d fuel false (p - d) t
      else if t ≤ d - p then t
      else (d - p) + simulateActiveTime i d fuel false 0 (t - (d - p)) := rfl

lemma simulateActiveTime_succ_uncharged (i d : ℚ) (fuel : ℕ) (p t : ℚ) :
    simulateActiveTime i d (fuel + 1) false p t =
      if i - p < 0 then simulateActiveTime i d fuel true (p - i) t
      else if t ≤ i - p then 0
      else simulateActiveTime i d fuel true 0 (t - (i - p)) := rfl

lemma simulateActiveTime_phase_zero (i d : ℚ) (hi : 0 < i) (hd : 0 < d) :
    ∀ (fuel : ℕ) (c : Bool) (t : ℚ), 0 ≤ t → t ≤ fuel * min i d →
      simulateActiveTime i d (fuel + 1) c 0 t =
        realTimeWhileActive (snap i d c 0) t := by
  intro fuel
  induction fuel with
  | zero =>
    intro c t ht hfuel
    have ht0 : t = 0 := by
      push_cast at hfuel
      linarith
    subst ht0
    cases c
    · rw [simulateActiveTime_succ_uncharged, if_neg (show ¬ i - 0 < 0 by linarith),
        if_pos (show (0 : ℚ) ≤ i - 0 by linarith)]
      exact (rtwa_uncharged_flat (snap i d false 0) 0 rfl hi hd le_rfl hi.le le_rfl
        (show (0 : ℚ) ≤ i - 0 by linarith)).symm
    · rw [simulateActiveTime_succ_charged, if_neg (show ¬ d - 0 < 0 by linarith),
        if_pos (show (0 : ℚ) ≤ d - 0 by linarith)]
      exact (rtwa_charged_flat (snap i d true 0) 0 rfl hi hd le_rfl hd.le le_rfl
        (show (0 : ℚ) ≤ d - 0 by linarith)).symm
  | succ fuel ih =>
    intro c t ht hfuel
    have hm : min i d ≤ d := min_le_right i d
    have hmi : min i d ≤ i := min_le_left i d
    have hexp : ((fuel : ℚ) + 1) * min i d = (fuel : ℚ) * min i d + min i d := by
      ring
    push_cast at hfuel
    cases c
    · rw [simulateActiveTime_succ_uncharged, if_neg (show ¬ i - 0 < 0 by linarith)]
      by_cases htb : t ≤ i - 0
      · rw [if_pos htb]
        exact (rtwa_uncharged_flat (snap i d false 0) t rfl hi hd le_rfl hi.le ht
          (show t ≤ i - 0 from htb)).symm
      · rw [if_neg htb]
        have hti : i - 0 < t := not_le.mp htb
        have h1 : 0 ≤ t - (i - 0) := by linarith
        have h2 : t - (i - 0) ≤ fuel * min i d := by linarith
        rw [ih true (t - (i - 0)) h1 h2]
        exact (rtwa_uncharged_step (snap i d false 0) t rfl hi hd le_rfl hi.le
          (show i - 0 ≤ t by linarith)).symm
    · rw [simulateActiveTime_succ_charged, if_neg (show ¬ d - 0 < 0 by linarith)]
      by_cases htb : t ≤ d - 0
      · rw [if_pos htb]
        exact (rtwa_charged_flat (snap i d true 0) t rfl hi hd le_rfl hd.le ht
          (show t ≤ d - 0 from htb)).symm
      · rw [if_neg htb]
        have htd : d - 0 < t := not_le.mp htb
        have h1 : 0 ≤ t - (d - 0) := by linarith
        have h2 : t - (d - 0) ≤ fuel * min i d := by linarith
        rw [ih false (t - (d - 0)) h1 h2]
        exact (rtwa_charged_step (snap i d true 0) t rfl hi hd le_rfl
          (show d - 0 ≤ t by linarith)).symm

/-! ## Bounds on the closed form and on the period lists -/

lemma realTimeWhileActive_le_time (s : BlackHoleState) (t : ℚ)
    (hi : 0 < s.interval) (hd : 0 < s.duration) (hp : 0 ≤ s.phase)
    (ht : 0 ≤ t) : realTimeWhileActive s t ≤ t := by
  have hL : 0 < cycleLength s := by
    unfold cycleLength
    linarith
  have hLq : 0 < s.interval + s.duration := hL
  have hNL : timeUntilNextDeactivation s ≤ cycleLength s :=
    timeUntilNextDeactivation_le hi.le hp
  have hNLq : timeUntilNextDeactivation s ≤ s.interval + s.duration := hNL
  rw [realTimeWhileActive_decomp s t hL (by linarith)]
  by_cases hx : 0 ≤ t - timeUntilNextDeactivation s
  · have h1 : hWin s.interval s.duration (t - timeUntilNextDeactivation s) ≤
        t - timeUntilNextDeactivation s := hWin_le_self hi.le hLq hx
    have h2 : min (timeUntilNextDeactivation s) s.duration ≤
        timeUntilNextDeactivation s := min_le_left _ _
    linarith
  · push_neg at hx
    have hxL : -(s.interval + s.duration) ≤ t - timeUntilNextDeactivation s := by
      linarith
    rw [hWin_floor_neg_one hLq hxL hx]
    by_cases hxd : 0 ≤ t - timeUntilNextDeactivation s + s.duration
    · rw [max_eq_left hxd]
      have h2 : min (timeUntilNextDeactivation s) s.duration ≤
          timeUntilNextDeactivation s := min_le_left _ _
      linarith
    · rw [max_eq_right (by linarith)]
      have h2 : min (timeUntilNextDeactivation s) s.duration ≤ s.duration :=
        min_le_right _ _
      linarith

lemma realTimeWhileActive_nonneg (s : BlackHoleState) (t : ℚ)
    (hwf : WellFormed s) (ht : 0 ≤ t) : 0 ≤ realTimeWhileActive s t := by
  obtain ⟨hi, hd, hp, hcd, hci⟩ := hwf
  have hL : 0 < cycleLength s := by
    unfold cycleLength
    linarith
  have hLq : 0 < s.interval + s.duration := hL
  cases hcs : s.isCharged
  · have hpi := hci hcs
    have hN : timeUntilNextDeactivation s = s.interval + s.duration - s.phase := by
      unfold timeUntilNextDeactivation cycleLength
      rw [if_neg (by rw [hcs]; exact Bool.false_ne_true)]
    rw [realTimeWhileActive_decomp s t hL (by rw [hN]; unfold cycleLength; linarith)]
    rw [hN]
    rw [min_eq_right (by linarith :
      s.duration ≤ s.interval + s.duration - s.phase)]
    by_cases hx : 0 ≤ t - (s.interval + s.duration - s.phase)
    · have := hWin_nonneg hLq hd.le hx
      linarith
    · push_neg at hx
      rw [hWin_floor_neg_one hLq (by linarith) hx]
      have := le_max_right
        (t - (s.interval + s.duration - s.phase) + s.duration) (0 : ℚ)
      linarith
  · have hpd := hcd hcs
    have hN : timeUntilNextDeactivation s = s.duration - s.phase := by
      unfold timeUntilNextDeactivation
      rw [if_pos hcs]
    rw [realTimeWhileActive_decomp s t hL (by rw [hN]; unfold cycleLength; linarith)]
    rw [hN]
    rw [min_eq_left (by linarith : s.duration - s.phase ≤ s.duration)]
    by_cases hx : 0 ≤ t - (s.duration - s.phase)
    · have := hWin_nonneg hLq hd.le hx
      linarith
    · push_neg at hx
      rw [hWin_floor_neg_one hLq (by linarith) hx]
      rw [max_eq_left (by linarith :
        (0 : ℚ) ≤ t - (s.duration - s.phase) + s.duration)]
      linarith

lemma activePeriodsAux_chain : ∀ (holes : List BlackHoleState) (last : ℚ),
    (∀ s ∈ holes, WellFormed s) → 0 ≤ last →
    List.Chain' (fun a b => b ≤ a) (last :: activePeriodsAux holes last) ∧
      ∀ x ∈ activePeriodsAux holes last, 0 ≤ x := by
  intro holes
  induction holes with
  | nil =>
    intro last _ _
    constructor
    · simp [activePeriodsAux]
    · intro x hx
      simp [activePeriodsAux] at hx
  | cons h rest ih =>
    intro last hwf hlast
    by_cases hu : h.isUnlocked
    · have hwfh : WellFormed h := hwf h (by simp)
      have hFle : realTimeWhileActive h last ≤ last :=
        realTimeWhileActive_le_time h last hwfh.1 hwfh.2.1 hwfh.2.2.1 hlast
      have hFnn : 0 ≤ realTimeWhileActive h last :=
        realTimeWhileActive_nonneg h last hwfh hlast
      have hrest := ih (realTimeWhileActive h last)
        (fun s hs => hwf s (by simp [hs])) hFnn
      have haux : activePeriodsAux (h :: rest) last =
          realTimeWhileActive h last ::
            activePeriodsAux rest (realTimeWhileActive h last) := by
        simp [activePeriodsAux, hu]
      rw [haux]
      constructor
      · exact List.chain'_cons.mpr ⟨hFle, hrest.1⟩
      · intro x hx
        rcases List.mem_cons.mp hx with rfl | hx'
        · exact hFnn
        · exact hrest.2 x hx'
    · have haux : activePeriodsAux (h :: rest) last = [] := by
        simp [activePeriodsAux, hu]
      rw [haux]
      constructor
      · simp
      · intro x hx
        simp at hx

lemma effectiveAux_sum : ∀ (x : ℚ) (xs : List ℚ), (effectiveAux (x :: xs)).sum = x := by
  intro x xs
  induction xs generalizing x with
  | nil => simp [effectiveAux]
  | cons y rest ih =>
    rw [show effectiveAux (x :: y :: rest) = (x - y) :: effectiveAux (y :: rest) from
      rfl]
    rw [List.sum_cons, ih y]
    ring

lemma effectiveAux_nonneg : ∀ xs : List ℚ, List.Chain' (fun a b => b ≤ a) xs →
    (∀ x ∈ xs, 0 ≤ x) → ∀ y ∈ effectiveAux xs, 0 ≤ y := by
  intro xs
  induction xs with
  | nil =>
    intro _ _ y hy
    simp [effectiveAux] at hy
  | cons x tail ih =>
    intro hch hnn y hy
    cases tail with
    | nil =>
      simp [effectiveAux] at hy
      subst hy
      exact hnn y (by simp)
    | cons z rest =>
      rw [show effectiveAux (x :: z :: rest) = (x - z) :: effectiveAux (z :: rest) from
        rfl] at hy
      rcases List.mem_cons.mp hy with rfl | hy'
      · have hzx : z ≤ x := (List.chain'_cons.mp hch).1
        linarith
      · exact ih (List.chain'_cons.mp hch).2
          (fun w hw => hnn w (List.mem_cons_of_mem x hw)) y hy'

/-! ## Binary search facts -/

lemma binarySearch_some_tolerance (f : ℚ → ℚ) (target tolerance : ℚ) :
    ∀ (fuel : ℕ) (start stop x : ℚ),
      binarySearch start stop f target tolerance fuel = some x →
      |f x - target| < tolerance := by
  intro fuel
  induction fuel with
  | zero =>
    intro start stop x h
    simp [binarySearch] at h
  | succ n ih =>
    intro start stop x h
    rw [show binarySearch start stop f target tolerance (n + 1) =
        (if |f ((start + stop) / 2) - target| < tolerance then some ((start + stop) / 2)
         else if f ((start + stop) / 2) - target < 0 then
           binarySearch ((start + stop) / 2) stop f target tolerance n
         else binarySearch start ((start + stop) / 2) f target tolerance n) from
      rfl] at h
    split_ifs at h with h1 h2
    · cases h
      exact h1
    · exact ih _ _ _ h
    · exact ih _ _ _ h

lemma binarySearch_zero_tolerance_none :
    ∀ (fuel : ℕ) (start stop : ℚ),
      binarySearch start stop (fun _ => 0) 1 0 fuel = none := by
  intro fuel
  induction fuel with
  | zero =>
    intro start stop
    rfl
  | succ n ih =>
    intro start stop
    rw [show binarySearch start stop (fun _ => (0 : ℚ)) 1 0 (n + 1) =
        (if |(0 : ℚ) - 1| < 0 then some ((start + stop) / 2)
         else if (0 : ℚ) - 1 < 0 then
           binarySearch ((start + stop) / 2) stop (fun _ => 0) 1 0 n
         else binarySearch start ((start + stop) / 2) (fun _ => 0) 1 0 n) from
      rfl]
    rw [if_neg (by norm_num), if_pos (by norm_num)]
    exact ih _ _

/-! ## Claim theorems -/

/-- Claim C2: for every modulator with `interval > 0`, `duration > 0` and
`0 ≤ phase < interval + duration`, one `updatePhase` call with any non-negative
elapsed amount leaves `interval` and `duration` unchanged and restores
`0 ≤ phase < interval + duration`. -/
theorem c2_updatePhase_phase_invariant (s : BlackHoleState) (a : ℚ)
    (hi : 0 < s.interval) (hd : 0 < s.duration) (hp : 0 ≤ s.phase)
    (hpL : s.phase < s.interval + s.duration) (ha : 0 ≤ a) :
    (updatePhase s a).interval = s.interval ∧
      (updatePhase s a).duration = s.duration ∧
      0 ≤ (updatePhase s a).phase ∧
      (updatePhase s a).phase < s.interval + s.duration := by
  have hL : 0 < cycleLength s := by
    unfold cycleLength
    linarith
  have h0 : 0 ≤ s.phase + a := by linarith
  have hm0 : 0 ≤ jsMod (s.phase + a) (cycleLength s) := jsMod_nonneg h0 hL
  have hm1 : jsMod (s.phase + a) (cycleLength s) < s.interval + s.duration :=
    jsMod_lt h0 hL
  have hLeq : cycleLength s = s.interval + s.duration := rfl
  unfold updatePhase
  dsimp only
  split_ifs <;> dsimp only at * <;>
    refine ⟨rfl, rfl, by linarith, by linarith⟩

/-- Claim C7 (amended): one `updatePhase` call toggles the charged flag at most
once, however many full cycles the modular reduction folded in; the flag is
unchanged exactly when the instrumented toggle count is zero. -/
theorem c7_at_most_one_toggle (s : BlackHoleState) (a : ℚ) (ha : 0 ≤ a) :
    updatePhaseToggles s a ≤ 1 ∧
      ((updatePhase s a).isCharged = s.isCharged ↔ updatePhaseToggles s a = 0) := by
  unfold updatePhase updatePhaseToggles
  dsimp only
  split_ifs <;> simp_all

/-- Claim C7 counterexample: the claim as stated requires exactly one toggle
per call; an `updatePhase` call covering exactly one full cycle (elapsed =
`cycleLength` = 3, from an uncharged phase 0) performs no toggle at all. -/
theorem c7_counterexample :
    (0 : ℚ) ≤ 3 ∧ SnapshotBounds (snap 2 1 false 0) ∧
      updatePhaseToggles (snap 2 1 false 0) 3 = 0 ∧
      (updatePhase (snap 2 1 false 0) 3).isCharged = (snap 2 1 false 0).isCharged := by
  refine ⟨by norm_num, by norm_num [SnapshotBounds, snap], ?_, ?_⟩
  · norm_num [updatePhaseToggles, snap, cycleLength, jsMod, jsTrunc]
  · norm_num [updatePhase, snap, cycleLength, jsMod, jsTrunc]

/-- Claim C2 witness: a concrete call folding three full cycles. -/
theorem c2_witness :
    (updatePhase (snap 2 1 false 0) 10).interval = (snap 2 1 false 0).interval ∧
      (updatePhase (snap 2 1 false 0) 10).duration = (snap 2 1 false 0).duration ∧
      0 ≤ (updatePhase (snap 2 1 false 0) 10).phase ∧
      (updatePhase (snap 2 1 false 0) 10).phase <
        (snap 2 1 false 0).interval + (snap 2 1 false 0).duration :=
  c2_updatePhase_phase_invariant (snap 2 1 false 0) 10 (by norm_num [snap])
    (by norm_num [snap]) (by norm_num [snap]) (by norm_num [snap]) (by norm_num)

/-- Claim C7 witness: a single-boundary-crossing call, for which the toggle
count is one and the flag flips. -/
theorem c7_witness :
    updatePhaseToggles (snap 2 1 false 0) (5/2) ≤ 1 ∧
      ((updatePhase (snap 2 1 false 0) (5/2)).isCharged = (snap 2 1 false 0).isCharged ↔
        updatePhaseToggles (snap 2 1 false 0) (5/2) = 0) :=
  c7_at_most_one_toggle (snap 2 1 false 0) (5/2) (by norm_num)

/-- Claim C1 (amended): for a snapshot whose phase is consistent with its
charged flag (phase within the active window when charged, within the inactive
window when uncharged), the closed-form `realTimeWhileActive` agrees with the
reference event simulation, for any fuel sufficient for the host-active
time `t`. -/
theorem c1_closed_form_eq_simulation (s : BlackHoleState) (t : ℚ) (fuel : ℕ)
    (hwf : WellFormed s) (ht : 0 ≤ t)
    (hfuel : t ≤ fuel * min s.interval s.duration) :
    simulateActiveTime s.interval s.duration (fuel + 2) s.isCharged s.phase t =
      realTimeWhileActive s t := by
  obtain ⟨hi, hd, hp, hcd, hci⟩ := hwf
  have h21 : fuel + 2 = (fuel + 1) + 1 := rfl
  rw [h21]
  cases hcs : s.isCharged
  · have hpi := hci hcs
    rw [simulateActiveTime_succ_uncharged,
      if_neg (show ¬ s.interval - s.phase < 0 by linarith)]
    by_cases htb : t ≤ s.interval - s.phase
    · rw [if_pos htb]
      exact (rtwa_uncharged_flat s t hcs hi hd hp hpi ht htb).symm
    · rw [if_neg htb]
      have htb' := not_le.mp htb
      have h1 : 0 ≤ t - (s.interval - s.phase) := by linarith
      have h2 : t - (s.interval - s.phase) ≤ fuel * min s.interval s.duration := by
        linarith
      rw [simulateActiveTime_phase_zero s.interval s.duration hi hd fuel true _ h1 h2]
      exact (rtwa_uncharged_step s t hcs hi hd hp hpi (by linarith)).symm
  · have hpd := hcd hcs
    rw [simulateActiveTime_succ_charged,
      if_neg (show ¬ s.duration - s.phase < 0 by linarith)]
    by_cases htb : t ≤ s.duration - s.phase
    · rw [if_pos htb]
      exact (rtwa_charged_flat s t hcs hi hd hp hpd ht htb).symm
    · rw [if_neg htb]
      have htb' := not_le.mp htb
      have h1 : 0 ≤ t - (s.duration - s.phase) := by linarith
      have h2 : t - (s.duration - s.phase) ≤ fuel * min s.interval s.duration := by
        linarith
      rw [simulateActiveTime_phase_zero s.interval s.duration hi hd fuel false _ h1 h2]
      exact (rtwa_charged_step s t hcs hi hd hp (by linarith)).symm

/-- Claim C1 counterexample: under the claim's own hypotheses
(`interval > 0`, `duration > 0`, `0 ≤ phase < interval + duration`) the closed
form and the simulation disagree.  At a charged snapshot with
`phase = 3/2 > duration = 1`, zero host time yields closed-form active time
`-1/2`, while any simulation of a zero-length interval yields `0`. -/
theorem c1_counterexample :
    SnapshotBounds (snap 1 1 true (3/2)) ∧ (0 : ℚ) ≤ 0 ∧
      realTimeWhileActive (snap 1 1 true (3/2)) 0 = -(1/2) ∧
      simulateActiveTime 1 1 3 true (3/2) 0 = 0 ∧
      simulateActiveTime 1 1 3 true (3/2) 0 ≠ realTimeWhileActive (snap 1 1 true (3/2)) 0 := by
  refine ⟨by norm_num [SnapshotBounds, snap], le_rfl, ?_, ?_, ?_⟩
  · norm_num [realTimeWhileActive, timeUntilNextDeactivation, cycleLength, snap,
      jsMod, jsTrunc]
  · norm_num [simulateActiveTime]
  · norm_num [simulateActiveTime, realTimeWhileActive, timeUntilNextDeactivation,
      cycleLength, snap, jsMod, jsTrunc]

/-- Claim C1 witness: an uncharged snapshot run for five host-time units. -/
theorem c1_witness :
    WellFormed (snap 2 1 false 0) ∧ (0 : ℚ) ≤ 5 ∧
      (5 : ℚ) ≤ 5 * min 2 1 ∧
      simulateActiveTime 2 1 (5 + 2) false 0 5 = realTimeWhileActive (snap 2 1 false 0) 5 :=
  ⟨by norm_num [WellFormed, snap], by norm_num, by norm_num,
    c1_closed_form_eq_simulation (snap 2 1 false 0) 5 5
      (by norm_num [WellFormed, snap]) (by norm_num) (by norm_num [snap])⟩

/-- Claim C4: for a fixed snapshot satisfying the claim's bounds, the map
`t ↦ realTimeWhileActive t` is monotone non-decreasing on `t ≥ 0`. -/
theorem c4_realTimeWhileActive_monotone (s : BlackHoleState) (t₁ t₂ : ℚ)
    (hb : SnapshotBounds s) (ht₁ : 0 ≤ t₁) (h12 : t₁ ≤ t₂) :
    realTimeWhileActive s t₁ ≤ realTimeWhileActive s t₂ := by
  obtain ⟨hi, hd, hp, hpL⟩ := hb
  have hL : 0 < cycleLength s := by
    unfold cycleLength
    linarith
  have hNL : timeUntilNextDeactivation s ≤ cycleLength s :=
    timeUntilNextDeactivation_le hi.le hp
  rw [realTimeWhileActive_decomp s t₁ hL (by linarith),
    realTimeWhileActive_decomp s t₂ hL (by linarith)]
  have hmono := hWin_mono hi hd
    (show t₁ - timeUntilNextDeactivation s ≤ t₂ - timeUntilNextDeactivation s by
      linarith)
  linarith

/-- Claim C4 witness: a charged snapshot at two comparable times. -/
theorem c4_witness :
    realTimeWhileActive (snap 3 2 true 1) 1 ≤ realTimeWhileActive (snap 3 2 true 1) 4 :=
  c4_realTimeWhileActive_monotone (snap 3 2 true 1) 1 4
    (by norm_num [SnapshotBounds, snap]) (by norm_num) (by norm_num)

/-- Claim C5: the effective periods always sum to the real-time amount they
decompose. -/
theorem c5_effective_periods_sum (holes : List BlackHoleState) (t : ℚ)
    (ht : 0 ≤ t) : (realTimePeriodsWithBlackHoleEffective holes t).sum = t := by
  unfold realTimePeriodsWithBlackHoleEffective realTimePeriodsWithBlackHoleActive
  exact effectiveAux_sum t _

/-- Claim C5 witness: a two-element chain at `t = 5`. -/
theorem c5_witness :
    (realTimePeriodsWithBlackHoleEffective [snap 2 1 false 0, snap 2 1 true 0] 5).sum = 5 :=
  c5_effective_periods_sum [snap 2 1 false 0, snap 2 1 true 0] 5 (by norm_num)

/-- Claim C6: with `numberOfTicks = 1`, `calculateOfflineTick` returns exactly
the total real time and the average speed, for every fuel value — in
particular for zero fuel, for which any call of the binary search would
return `none`, so the search is not consulted. -/
theorem c6_single_tick_shortcut (holes : List BlackHoleState) (speedups : List ℚ)
    (T tol : ℚ) (fuel : ℕ) (hT : 0 < T) :
    calculateOfflineTick holes speedups T 1 tol fuel =
      some (T, calculateGameTimeFromRealTime holes T speedups / T) := by
  unfold calculateOfflineTick
  simp

/-- Claim C6 witness: a concrete single-tick call with zero fuel. -/
theorem c6_witness :
    calculateOfflineTick [] [1] 2 1 1 0 =
      some (2, calculateGameTimeFromRealTime [] 2 [1] / 2) :=
  c6_single_tick_shortcut [] [1] 2 1 0 (by norm_num)

/-- Claim C3: whenever `calculateOfflineTick` with more than one tick returns
at all, the returned real tick time is within tolerance of the average game
time per tick and the returned rate is exactly game time over real time. -/
theorem c3_offline_tick_within_tolerance (holes : List BlackHoleState)
    (speedups : List ℚ) (T tol x r : ℚ) (N fuel : ℕ) (hN : 1 < N)
    (h : calculateOfflineTick holes speedups T N tol fuel = some (x, r)) :
    |calculateGameTimeFromRealTime holes x speedups * N /
        calculateGameTimeFromRealTime holes T speedups - 1| < tol ∧
      r = calculateGameTimeFromRealTime holes x speedups / x := by
  unfold calculateOfflineTick at h
  rw [if_neg (show ¬ N = 1 by omega)] at h
  rcases hbs : binarySearch 0 T
      (fun y => calculateGameTimeFromRealTime holes y speedups * N /
        calculateGameTimeFromRealTime holes T speedups) 1 tol fuel with _ | m
  · rw [hbs] at h
    simp at h
  · rw [hbs] at h
    simp only [Option.map_some'] at h
    rw [Option.some.injEq, Prod.mk.injEq] at h
    obtain ⟨hxm, hrm⟩ := h
    subst hxm
    have htol := binarySearch_some_tolerance
      (fun y => calculateGameTimeFromRealTime holes y speedups * N /
        calculateGameTimeFromRealTime holes T speedups) 1 tol fuel 0 T m hbs
    exact ⟨by simpa using htol, hrm.symm⟩

/-- Claim C3 witness: a trivial chain split into two ticks. -/
theorem c3_witness :
    |calculateGameTimeFromRealTime [] 1 [1] * (2 : ℕ) /
        calculateGameTimeFromRealTime [] 2 [1] - 1| < 1/10 ∧
      (1 : ℚ) = calculateGameTimeFromRealTime [] 1 [1] / 1 :=
  c3_offline_tick_within_tolerance [] [1] 2 (1/10) 1 1 2 1 (by norm_num)
    (by norm_num [calculateOfflineTick, binarySearch, calculateGameTimeFromRealTime,
      realTimePeriodsWithBlackHoleEffective, realTimePeriodsWithBlackHoleActive,
      activePeriodsAux, effectiveAux, List.enum, List.enumFrom])

/-- Claim C8 (amended): the source binary search has no iteration ceiling and
no error signal.  Within any iteration bound it either has returned a
within-tolerance result or has produced nothing yet, and there are concrete
inputs (tolerance `0`) on which it never returns for any bound — the loop
diverges rather than surfacing an invariant failure. -/
theorem c8_search_no_error_signal :
    (∀ (start stop : ℚ) (f : ℚ → ℚ) (target tolerance x : ℚ) (fuel : ℕ),
        binarySearch start stop f target tolerance fuel = some x →
        |f x - target| < tolerance) ∧
      ∀ fuel : ℕ, binarySearch 0 1 (fun _ => 0) 1 0 fuel = none := by
  constructor
  · intro start stop f target tolerance x fuel h
    exact binarySearch_some_tolerance f target tolerance fuel start stop x h
  · intro fuel
    exact binarySearch_zero_tolerance_none fuel 0 1

/-- Claim C8 counterexample: on the concrete input with tolerance `0` the
search never returns within any iteration bound, and the source has no error
path, refuting the claim that some bound always ends in a result or a
signalled failure. -/
theorem c8_counterexample :
    ¬ ∃ (fuel : ℕ) (x : ℚ), binarySearch 0 1 (fun _ => 0) 1 0 fuel = some x := by
  rintro ⟨fuel, x, h⟩
  rw [binarySearch_zero_tolerance_none fuel 0 1] at h
  exact Option.noConfusion h

/-- Claim C8 witness: a call that does return is within tolerance. -/
theorem c8_witness : |(1 : ℚ) - 1| < 1/2 :=
  c8_search_no_error_signal.1 0 2 (fun y => y) 1 (1/2) 1 1
    (by norm_num [binarySearch])

/-- Claim C9 counterexample: the constructor performs no validation and never
fails; it is a total function, and for chain position `4` (outside the ids
`0..2` the source ever uses) with no upgrades it happily produces a modulator
whose cycle length is negative. -/
theorem c9_counterexample :
    cycleLength (mkBlackHoleState 4 0 0 0 0 false 0 false) < 0 := by
  norm_num [cycleLength, mkBlackHoleState, intervalValue, durationValue]

/-- Claim C9 (amended): for the chain positions the source actually
constructs (`BlackHoleState.list` uses ids `0`, `1`, `2`) every parameter
combination yields a strictly positive cycle length, so phase normalization is
well defined; no explicit rejection exists or is exercised. -/
theorem c9_constructed_cycle_length_pos (id aI aP aD : ℕ) (p : ℚ) (c : Bool)
    (act : ℤ) (u : Bool) (hid : id < 3) :
    0 < cycleLength (mkBlackHoleState id aI aP aD p c act u) := by
  unfold cycleLength mkBlackHoleState intervalValue durationValue
  dsimp only
  have h1 : 0 < (3600 / 10 ^ id : ℚ) * (4 / 5) ^ aI := by positivity
  have hid2 : (id : ℚ) ≤ 2 := by
    exact_mod_cast Nat.lt_succ_iff.mp hid
  have h2 : 0 < (10 - 3 * (id : ℚ)) * (13 / 10) ^ aD :=
    mul_pos (by linarith) (by positivity)
  linarith

/-- Claim C9 witness: the third black hole with five upgrades of each kind. -/
theorem c9_witness :
    0 < cycleLength (mkBlackHoleState 2 5 5 5 (1/2) true 7 true) :=
  c9_constructed_cycle_length_pos 2 5 5 5 (1/2) true 7 true (by norm_num)

/-- Claim C10 (amended): under the claim's bounds a single active time never
exceeds the host time; when moreover every modulator's phase is consistent
with its charged flag, the active-period sequence is non-increasing and every
effective period is non-negative. -/
theorem c10_active_periods_bounds :
    (∀ (s : BlackHoleState) (t : ℚ), SnapshotBounds s → 0 ≤ t →
        realTimeWhileActive s t ≤ t) ∧
      ∀ (holes : List BlackHoleState) (t : ℚ),
        (∀ s ∈ holes, WellFormed s) → 0 ≤ t →
        List.Chain' (fun a b => b ≤ a) (realTimePeriodsWithBlackHoleActive holes t) ∧
          ∀ x ∈ realTimePeriodsWithBlackHoleEffective holes t, 0 ≤ x := by
  constructor
  · intro s t hb ht
    exact realTimeWhileActive_le_time s t hb.1 hb.2.1 hb.2.2.1 ht
  · intro holes t hwf ht
    have hchain := activePeriodsAux_chain holes t hwf ht
    refine ⟨hchain.1, ?_⟩
    intro x hx
    apply effectiveAux_nonneg (t :: activePeriodsAux holes t) hchain.1 _ x hx
    intro w hw
    rcases List.mem_cons.mp hw with rfl | hw'
    · exact ht
    · exact hchain.2 w hw'

/-- Claim C10 counterexample: with only the claim's stated bounds (phase may
exceed the flag's window), a chain of two modulators at `t = 0` produces the
effective periods `[1/2, 1/2, -1]`, whose last element is negative. -/
theorem c10_counterexample :
    (∀ s ∈ [snap 1 1 true (3/2), snap 1 1 false 0], SnapshotBounds s) ∧
      (0 : ℚ) ≤ 0 ∧
      realTimePeriodsWithBlackHoleEffective [snap 1 1 true (3/2), snap 1 1 false 0] 0 =
        [1/2, 1/2, -1] ∧
      ¬ ∀ x ∈ realTimePeriodsWithBlackHoleEffective
          [snap 1 1 true (3/2), snap 1 1 false 0] 0, 0 ≤ x := by
  have hceil : (⌈-(1/4 : ℚ)⌉ : ℤ) = 0 := by norm_num
  have hlist : realTimePeriodsWithBlackHoleEffective
      [snap 1 1 true (3/2), snap 1 1 false 0] 0 = [1/2, 1/2, -1] := by
    norm_num [realTimePeriodsWithBlackHoleEffective, realTimePeriodsWithBlackHoleActive,
      activePeriodsAux, effectiveAux, realTimeWhileActive, timeUntilNextDeactivation,
      cycleLength, snap, jsMod, jsTrunc]
    rw [hceil]
    norm_num
  refine ⟨?_, le_rfl, hlist, ?_⟩
  · intro s hs
    rcases List.mem_cons.mp hs with rfl | hs'
    · norm_num [SnapshotBounds, snap]
    · rcases List.mem_cons.mp hs' with rfl | hs''
      · norm_num [SnapshotBounds, snap]
      · simp at hs''
  · intro hall
    rw [hlist] at hall
    have := hall (-1) (by simp)
    linarith

/-- Claim C10 witness: a single well-formed modulator at `t = 5`. -/
theorem c10_witness :
    realTimeWhileActive (snap 2 1 false 0) 5 ≤ 5 ∧
      (List.Chain' (fun a b => b ≤ a)
          (realTimePeriodsWithBlackHoleActive [snap 2 1 false 0] 5) ∧
        ∀ x ∈ realTimePeriodsWithBlackHoleEffective [snap 2 1 false 0] 5, 0 ≤ x) :=
  ⟨c10_active_periods_bounds.1 (snap 2 1 false 0) 5
      (by norm_num [SnapshotBounds, snap]) (by norm_num),
    c10_active_periods_bounds.2 [snap 2 1 false 0] 5
      (by
        intro s hs
        simp at hs
        subst hs
        norm_num [WellFormed, snap])
      (by norm_num)⟩

end BlackHoleVerif
